import Mathlib

/-!
Verification development for the dilated file-transfer client
(`newcli.py`).  The Python source is shallowly embedded: byte strings
become `List Nat` (each entry one byte value), Python `int` becomes
`Int` (or `Nat` where the source guarantees non-negativity), fallible
code returns `Except String`, and mutable protocol objects become
explicit state records threaded through the step functions.  The
cryptographic hash (`hashlib.sha256`) and the JSON serializer
(`dict_to_bytes` / `bytes_to_dict`) are external library collaborators;
theorems that depend on them are parametrized over an arbitrary
deterministic digest function `H : List Nat -> List Nat` and an
arbitrary decoder `dec : List Nat -> HeaderMsg`, exactly as the code
uses them (the same function on both sides).
-/

/-- A Python runtime value, as far as `from_be8` inspects it: the
`isinstance(b, bytes)` check distinguishes byte strings from every
other object. -/
inductive PyVal where
  | bytes (b : List Nat)
  | str (s : String)
  | int (i : Int)
deriving DecidableEq

/-- The eight big-endian base-256 digits of `v`, most significant
first: the result of `struct.pack(">Q", v)` for `0 <= v < 2^64`.
The literals are 2^56, 2^48, 2^40, 2^32, 2^24, 2^16, 2^8. -/
def be8encode (v : Nat) : List Nat :=
  [v / 72057594037927936 % 256, v / 281474976710656 % 256,
   v / 1099511627776 % 256, v / 4294967296 % 256,
   v / 16777216 % 256, v / 65536 % 256, v / 256 % 256, v % 256]

/-- Embeds `to_be8` (src/newcli.py lines 34-37): range check, then
`struct.pack(">Q", value)`.  Python ints may be negative, hence `Int`. -/
def to_be8 (value : Int) : Except String (List Nat) :=
  if 0 ≤ value ∧ value < 18446744073709551616 then
    Except.ok (be8encode value.toNat)
  else
    Except.error "ValueError"

/-- The value of `struct.unpack(">Q", b)[0]` on an 8-byte big-endian
string: fold the digits most significant first. -/
def from_be8core (b : List Nat) : Nat :=
  b.foldl (fun acc d => acc * 256 + d) 0

/-- Embeds `from_be8` (src/newcli.py lines 39-44): `isinstance` check
(TypeError), length check (ValueError), then `struct.unpack(">Q", b)`. -/
def from_be8 (b : PyVal) : Except String Nat :=
  match b with
  | PyVal.bytes bs =>
      if bs.length = 8 then Except.ok (from_be8core bs)
      else Except.error "ValueError"
  | _ => Except.error "TypeError"

/-- A frame as the senders produce it: 8-byte big-endian length prefix
followed by the payload (`transport.write(to_be8(len(resp_bytes)))`
then `transport.write(resp_bytes)`, src/newcli.py lines 77-78 and
236-237). -/
def encode (payload : List Nat) : List Nat :=
  be8encode payload.length ++ payload

/-- One round of the buffering frame decoder that
`ReceiveProtocol.dataReceived` (src/newcli.py lines 58-73),
`SendProtocol.dataReceived` (lines 186-201) and
`ControlProtocol.dataReceived` (lines 239-249) all implement: append
the new data to the buffer; with fewer than 8 bytes return no frame;
otherwise read the declared length from the first 8 bytes and return
the payload and the remainder once the whole frame has arrived. -/
def feedBuf (buf : List Nat) : Option (List Nat) × List Nat :=
  if buf.length < 8 then (none, buf)
  else if buf.length < 8 + from_be8core (buf.take 8) then (none, buf)
  else (some ((buf.drop 8).take (from_be8core (buf.take 8))),
        buf.drop (8 + from_be8core (buf.take 8)))

/-- One decoder call as the dataReceived handlers make it: append the
newly delivered data to the held buffer and examine the result. -/
def feed (buffer newData : List Nat) : Option (List Nat) × List Nat :=
  feedBuf (buffer ++ newData)

/-- Feeding a list of successive deliveries through the decoder,
keeping the buffer between calls and stopping at the first complete
frame, exactly as the dataReceived handlers do across successive
reactor callbacks. -/
def feedSeq (buffer : List Nat) : List (List Nat) → Option (List Nat) × List Nat
  | [] => (none, buffer)
  | c :: cs =>
      match feed buffer c with
      | (none, buf2) => feedSeq buf2 cs
      | (some f, rest) => (some f, rest)

/-- A JSON-ish value as it comes out of `bytes_to_dict`: enough to
express the `isinstance(size, six.integer_types)` check. -/
inductive JVal where
  | int (i : Int)
  | str (s : String)
deriving DecidableEq

/-- A decoded header map with the keys the receiver accesses:
`header["type"]`, `header["compression"]` (presence test),
`header["size"]`, `header["name"]`. -/
structure HeaderMsg where
  type : JVal
  name : String
  size : JVal
  compression : Option JVal
deriving DecidableEq

/-- A decoded ack map: `{"ack": ..., "sha256": ...}`.  The digest is a
byte-level value (`List Nat`) because the digest function is kept
abstract. -/
structure AckMsg where
  ack : String
  sha256 : List Nat
deriving DecidableEq

/-- State of a `Receiver` (src/newcli.py lines 84-111): the sink
contents stand in for the open file object `fd`, `hasher` records the
bytes fed to the digest accumulator, `remaining` counts down from the
declared size (Python ints go negative), `fdClosed` records that
`finish` closed the sink. -/
structure Receiver where
  fd : List Nat
  remaining : Int
  hasher : List Nat
  fdClosed : Bool
deriving DecidableEq

/-- Embeds `Receiver.finish` (src/newcli.py lines 102-107): close the
sink and build the ack from the digest of the accumulated bytes.  `H`
is the digest function (`hexdigest` of the accumulated stream). -/
def Receiver.finish (H : List Nat → List Nat) (r : Receiver) :
    Receiver × AckMsg :=
  ({ r with fdClosed := true }, { ack := "ok", sha256 := H r.hasher })

/-- Embeds `Receiver.write` (src/newcli.py lines 91-100), preserving
the statement order of the source: the hasher is updated first, then
the data is written to the sink (which in Python raises once the file
has been closed), then `remaining` is decremented, and only then is
the zero / overflow check made. -/
def Receiver.write (H : List Nat → List Nat) (r : Receiver)
    (data : List Nat) : Receiver × Except String (Option AckMsg) :=
  let r1 := { r with hasher := r.hasher ++ data }
  if r1.fdClosed then
    (r1, Except.error "write to closed file")
  else
    let r2 := { r1 with fd := r1.fd ++ data,
                        remaining := r1.remaining - data.length }
    if r2.remaining = 0 then
      let (r3, a) := Receiver.finish H r2
      (r3, Except.ok (some a))
    else if r2.remaining < 0 then
      (r2, Except.error "Receiver overflow")
    else
      (r2, Except.ok none)

/-- Embeds `Receiver.close` (src/newcli.py lines 109-111). -/
def Receiver.close (r : Receiver) : Except String Unit :=
  if r.remaining ≠ 0 then Except.error "unexpected close"
  else Except.ok ()

/-- Embeds the validation part of `ReceiverFactory.incoming_file`
(src/newcli.py lines 120-146): reject a type other than `"file"`,
reject any `compression` key, reject a non-integer size; otherwise
open the destination sink and return a fresh `Receiver` whose
`remaining` starts at the declared size. -/
def incoming_file (header : HeaderMsg) : Except String Receiver :=
  if header.type ≠ JVal.str "file" then
    Except.error "unknown header type"
  else if header.compression.isSome then
    Except.error "unknown compression"
  else
    match header.size with
    | JVal.int n =>
        Except.ok { fd := [], remaining := n, hasher := [], fdClosed := false }
    | _ => Except.error "unknown size"

/-- State of a `ReceiveProtocol` (src/newcli.py lines 46-82):
`inHeader` is `_in_header`, `headerBuffer` is `_header_buffer`,
`receiver` is `_receiver`. -/
structure RecvState where
  inHeader : Bool
  headerBuffer : List Nat
  receiver : Option Receiver
deriving DecidableEq

/-- A freshly constructed `ReceiveProtocol`. -/
def initRecvState : RecvState :=
  { inHeader := true, headerBuffer := [], receiver := none }

/-- Embeds `ReceiveProtocol.dataReceived` (src/newcli.py lines 58-78):
while in the header phase, buffer until the whole header frame is
present, decode it with `dec` (standing for `bytes_to_dict`), build
the receiver via `incoming_file`, and fall through with the bytes past
the header frame; in either phase, pass the data to `Receiver.write`
and return the ack it produces, if any. -/
def recvDataReceived (dec : List Nat → HeaderMsg) (H : List Nat → List Nat)
    (st : RecvState) (data : List Nat) :
    Except String (RecvState × Option AckMsg) :=
  if st.inHeader then
    let hb := st.headerBuffer ++ data
    if hb.length < 8 then
      Except.ok ({ st with headerBuffer := hb }, none)
    else
      let hsize := from_be8core (hb.take 8)
      if hb.length < 8 + hsize then
        Except.ok ({ st with headerBuffer := hb }, none)
      else
        let header := dec ((hb.drop 8).take hsize)
        match incoming_file header with
        | Except.error e => Except.error e
        | Except.ok recv =>
            let rest := hb.drop (8 + hsize)
            match Receiver.write H recv rest with
            | (_, Except.error e) => Except.error e
            | (r2, Except.ok a) =>
                Except.ok ({ inHeader := false, headerBuffer := [],
                             receiver := some r2 }, a)
  else
    match st.receiver with
    | none => Except.error "no receiver"
    | some r =>
        match Receiver.write H r data with
        | (_, Except.error e) => Except.error e
        | (r2, Except.ok a) =>
            Except.ok ({ st with receiver := some r2 }, a)

/-- Embeds `ReceiveProtocol.connectionLost` (src/newcli.py lines
80-82): the receiver, when one exists, is closed; with no receiver the
handler does nothing. -/
def receiveConnectionLost (receiver : Option Receiver) :
    Except String Unit :=
  match receiver with
  | none => Except.ok ()
  | some r => Receiver.close r

/-- Embeds `SendProtocol.connectionLost` (src/newcli.py lines
213-217): when the transfer is not done, an error failure is fired at
the one-shot observer the orchestrator awaits; the result is the error
surfaced to the waiter, if any. -/
def sendConnectionLost (done : Bool) : Option String :=
  if done then none else some "premature close"

/-- Embeds the byte stream `SendProtocol.connectionMade`
(src/newcli.py lines 163-184) hands to the transport: it writes the
serialized header bytes directly (`transport.write(header_bytes)`,
with no length prefix), then the file content streamed by the file
sender. -/
def connectionMade_writes (header_bytes fileBytes : List Nat) :
    List Nat :=
  header_bytes ++ fileBytes

/-- Outcome of `SendProtocol.process_ack` (src/newcli.py lines
203-211): one of the three RuntimeErrors, or success, which fires
`"ok"` at the observer the orchestrator awaits. -/
inductive AckOutcome where
  | prematureAck
  | notOk (v : String)
  | hashMismatch
  | success
deriving DecidableEq

/-- Embeds `SendProtocol.process_ack` (src/newcli.py lines 203-211):
`expected` is `_expected_hexhash` (`none` until the whole source has
been read and hashed). -/
def process_ack (expected : Option (List Nat)) (a : AckMsg) :
    AckOutcome :=
  match expected with
  | none => AckOutcome.prematureAck
  | some h =>
      if a.ack ≠ "ok" then AckOutcome.notOk a.ack
      else if a.sha256 ≠ h then AckOutcome.hashMismatch
      else AckOutcome.success

/-- The digest accumulator state on the sending side after the
`_count_and_hash` transform (src/newcli.py lines 170-173) has seen
each chunk of the source, in order. -/
def sendHashChunks (hs : List Nat) : List (List Nat) → List Nat
  | [] => hs
  | c :: cs => sendHashChunks (hs ++ c) cs

/-- Drives a `Receiver` over a list of payload deliveries, as
`ReceiveProtocol.dataReceived` does once the header phase is over,
stopping when an ack is produced (the sender closes the stream on
receiving the ack). -/
def runReceiver (H : List Nat → List Nat) (r : Receiver) :
    List (List Nat) → Except String (Receiver × Option AckMsg)
  | [] => Except.ok (r, none)
  | c :: cs =>
      match Receiver.write H r c with
      | (_, Except.error e) => Except.error e
      | (r2, Except.ok (some a)) => Except.ok (r2, some a)
      | (r2, Except.ok none) => runReceiver H r2 cs

/-- An observable event of the sending orchestrator (the `tx` branch
of `open`, src/newcli.py lines 276-291). -/
inductive SessionEvent where
  | openStream (i : Nat)
  | completed (i : Nat)
  | failed (i : Nat)
  | controlDone
deriving DecidableEq

/-- Embeds the `tx` loop of `open` (src/newcli.py lines 276-291) as
the trace of events it produces: for each file, in the order given,
the orchestrator connects a `SendProtocol` (opening the outbound
stream) and then yields on `when_done()`; one `Bool` per file records
whether that deferred fires with success (`completed`) or with an
error, which propagates out of the generator and aborts the loop
(`failed`).  Only after the loop does it send `{"done": "done"}` on
the control channel (`controlDone`). -/
def sendLoop (i : Nat) : List Bool → List SessionEvent
  | [] => [SessionEvent.controlDone]
  | true :: rest =>
      SessionEvent.openStream i :: SessionEvent.completed i ::
        sendLoop (i + 1) rest
  | false :: _ =>
      [SessionEvent.openStream i, SessionEvent.failed i]

theorem be8encode_length (v : Nat) : (be8encode v).length = 8 := rfl

theorem from_be8core_be8encode (n : Nat) (h : n < 18446744073709551616) :
    from_be8core (be8encode n) = n := by
  simp only [from_be8core, be8encode, List.foldl]
  omega

theorem encode_length (p : List Nat) : (encode p).length = 8 + p.length := by
  simp [encode, be8encode_length]

theorem take8_of_prefix {p q : List Nat}
    (hpre : ∃ t, q ++ t = encode p) (h8 : 8 ≤ q.length) :
    q.take 8 = be8encode p.length := by
  obtain ⟨t, ht⟩ := hpre
  have h1 : (q ++ t).take 8 = q.take 8 := List.take_append_of_le_length h8
  rw [ht] at h1
  rw [← h1, encode]
  exact List.take_left' (be8encode_length _)

theorem feedBuf_prefix_none (p q : List Nat)
    (hp : p.length < 18446744073709551616)
    (hpre : ∃ t, q ++ t = encode p)
    (hlt : q.length < 8 + p.length) :
    feedBuf q = (none, q) := by
  unfold feedBuf
  by_cases h8 : q.length < 8
  · rw [if_pos h8]
  · rw [if_neg h8]
    have ht : q.take 8 = be8encode p.length :=
      take8_of_prefix hpre (not_lt.mp h8)
    rw [ht, from_be8core_be8encode p.length hp, if_pos hlt]

theorem feedBuf_complete (p extra : List Nat)
    (hp : p.length < 18446744073709551616) :
    feedBuf (encode p ++ extra) = (some p, extra) := by
  have htake : (encode p ++ extra).take 8 = be8encode p.length := by
    rw [show encode p ++ extra = be8encode p.length ++ (p ++ extra) from by
      simp [encode]]
    exact List.take_left' (be8encode_length _)
  have hlen : (encode p ++ extra).length = 8 + p.length + extra.length := by
    simp [encode_length]
  have hdrop8 : (encode p ++ extra).drop 8 = p ++ extra := by
    rw [show encode p ++ extra = be8encode p.length ++ (p ++ extra) from by
      simp [encode]]
    exact List.drop_left' (be8encode_length _)
  have hdropAll : (encode p ++ extra).drop (8 + p.length) = extra := by
    rw [show encode p ++ extra = (be8encode p.length ++ p) ++ extra from by
      simp [encode]]
    exact List.drop_left' (by simp [be8encode_length])
  unfold feedBuf
  rw [htake, from_be8core_be8encode p.length hp,
      if_neg (by rw [hlen]; omega), if_neg (by rw [hlen]; omega),
      hdrop8, hdropAll, List.take_left p extra]

theorem feedSeq_prefix_none (p : List Nat)
    (hp : p.length < 18446744073709551616) :
    ∀ (chunks : List (List Nat)) (b : List Nat),
      (∃ t, (b ++ chunks.flatten) ++ t = encode p) →
      (b ++ chunks.flatten).length < 8 + p.length →
      feedSeq b chunks = (none, b ++ chunks.flatten) := by
  intro chunks
  induction chunks with
  | nil => intro b _ _; simp [feedSeq]
  | cons c cs ih =>
      intro b hpre hlt
      have hflat : b ++ (c :: cs).flatten = (b ++ c) ++ cs.flatten := by
        simp [List.append_assoc]
      rw [hflat] at hpre hlt ⊢
      have hfeed : feed b c = (none, b ++ c) := by
        apply feedBuf_prefix_none p (b ++ c) hp
        · obtain ⟨t, ht⟩ := hpre
          exact ⟨cs.flatten ++ t, by simpa [List.append_assoc] using ht⟩
        · simp only [List.length_append] at hlt ⊢
          omega
      rw [feedSeq, hfeed]
      exact ih (b ++ c) hpre hlt

theorem feedSeq_complete (p : List Nat)
    (hp : p.length < 18446744073709551616) :
    ∀ (chunks : List (List Nat)) (b : List Nat),
      b ++ chunks.flatten = encode p →
      b.length < 8 + p.length →
      feedSeq b chunks = (some p, []) := by
  intro chunks
  induction chunks with
  | nil =>
      intro b heq hlt
      exfalso
      have hb : b = encode p := by simpa using heq
      rw [hb, encode_length] at hlt
      omega
  | cons c cs ih =>
      intro b heq hlt
      have hflat : b ++ (c :: cs).flatten = (b ++ c) ++ cs.flatten := by
        simp [List.append_assoc]
      rw [hflat] at heq
      by_cases hcase : (b ++ c).length < 8 + p.length
      · have hfeed : feed b c = (none, b ++ c) :=
          feedBuf_prefix_none p (b ++ c) hp ⟨cs.flatten, heq⟩ hcase
        rw [feedSeq, hfeed]
        exact ih (b ++ c) heq hcase
      · push_neg at hcase
        have hlen : ((b ++ c) ++ cs.flatten).length = 8 + p.length := by
          rw [heq, encode_length]
        simp only [List.length_append] at hlen hcase
        have h2 : cs.flatten.length = 0 := by omega
        have hnil : cs.flatten = [] := List.length_eq_zero.mp h2
        have hbc : b ++ c = encode p := by
          rw [hnil, List.append_nil] at heq
          exact heq
        have hfeed : feed b c = (some p, []) := by
          have hres := feedBuf_complete p [] hp
          rw [List.append_nil] at hres
          unfold feed
          rw [hbc]
          exact hres
        rw [feedSeq, hfeed]

/-- Claim C6: for every payload (of length below 2^64) and every way
of splitting its encoded frame into successive deliveries, the
buffering frame decoder returns no frame while fewer than the full
8 + N bytes have arrived (for deliveries that are a prefix of the
frame), returns exactly the original payload once all bytes have
arrived, and leaves any bytes past the frame as remainder for the
next call. -/
theorem frame_roundtrip_any_split (p extra : List Nat)
    (chunks : List (List Nat))
    (hp : p.length < 18446744073709551616) :
    (chunks.flatten.length < 8 + p.length →
      (∃ t, chunks.flatten ++ t = encode p) →
      feedSeq [] chunks = (none, chunks.flatten)) ∧
    (chunks.flatten = encode p → feedSeq [] chunks = (some p, [])) ∧
    feed [] (encode p ++ extra) = (some p, extra) := by
  refine ⟨?_, ?_, by
    unfold feed
    rw [List.nil_append]
    exact feedBuf_complete p extra hp⟩
  · intro hlt hpre
    have := feedSeq_prefix_none p hp chunks []
    simp only [List.nil_append] at this
    exact this hpre hlt
  · intro heq
    have := feedSeq_complete p hp chunks []
    simp only [List.nil_append] at this
    exact this heq (by simp)

/-- Witness for frame_roundtrip_any_split: the frame for payload
[1, 2, 3] split into three deliveries decodes to the payload. -/
theorem frame_roundtrip_any_split_witness :
    feedSeq [] [[0, 0, 0, 0], [0, 0, 0, 3, 1], [2, 3]] =
      (some [1, 2, 3], []) :=
  (frame_roundtrip_any_split [1, 2, 3] []
    [[0, 0, 0, 0], [0, 0, 0, 3, 1], [2, 3]] (by decide)).2.1 (by decide)

/-- Claim C10: the 8-byte length codec is a partial bijection.  For
every integer v with 0 ≤ v < 2^64, decoding the 8-byte big-endian
encoding of v yields v back; encoding raises ValueError for every v
outside that range; decoding raises ValueError for a byte string whose
length is not 8 and TypeError for any non-bytes input. -/
theorem be8_partial_bijection :
    (∀ v : Int, 0 ≤ v → v < 18446744073709551616 →
      ∃ bs, to_be8 v = Except.ok bs ∧
        from_be8 (PyVal.bytes bs) = Except.ok v.toNat ∧
        (v.toNat : Int) = v) ∧
    (∀ v : Int, v < 0 ∨ 18446744073709551616 ≤ v →
      to_be8 v = Except.error "ValueError") ∧
    (∀ bs : List Nat, bs.length ≠ 8 →
      from_be8 (PyVal.bytes bs) = Except.error "ValueError") ∧
    (∀ x : PyVal, (∀ bs, x ≠ PyVal.bytes bs) →
      from_be8 x = Except.error "TypeError") := by
  refine ⟨?_, ?_, ?_, ?_⟩
  · intro v h0 hlt
    refine ⟨be8encode v.toNat, ?_, ?_, ?_⟩
    · simp [to_be8, h0, hlt]
    · have hn : v.toNat < 18446744073709551616 := by omega
      simp [from_be8, be8encode_length, from_be8core_be8encode v.toNat hn]
    · omega
  · intro v hv
    have : ¬(0 ≤ v ∧ v < 18446744073709551616) := by omega
    simp [to_be8, this]
  · intro bs hbs
    simp [from_be8, hbs]
  · intro x hx
    cases x with
    | bytes bs => exact absurd rfl (hx bs)
    | str s => rfl
    | int i => rfl

/-- Witness for be8_partial_bijection at v = 5. -/
theorem be8_partial_bijection_witness :
    ∃ bs, to_be8 5 = Except.ok bs ∧
      from_be8 (PyVal.bytes bs) = Except.ok (5 : Int).toNat ∧
      ((5 : Int).toNat : Int) = 5 :=
  be8_partial_bijection.1 5 (by decide) (by decide)

/-- Claim C1 (the code contradicts it): SendProtocol.connectionMade
writes the serialized header bytes directly, with no 8-byte big-endian
length prefix, so the first bytes on the transfer stream are not a
Header frame.  Evaluated at the 2-byte header serialization [123, 125]
followed by a 20-byte payload: the written bytes differ from the
framed header followed by the payload, the receiver-side frame decoder
extracts no header frame from them (it misreads the first payload
bytes as a huge length), while the framed form decodes to exactly the
header bytes with the payload as remainder. -/
theorem connectionMade_writes_unframed :
    connectionMade_writes [123, 125] (List.replicate 20 0) ≠
      encode [123, 125] ++ List.replicate 20 0 ∧
    (feed [] (connectionMade_writes [123, 125] (List.replicate 20 0))).1
      = none ∧
    feed [] (encode [123, 125] ++ List.replicate 20 0) =
      (some [123, 125], List.replicate 20 0) := by decide

/-- Claim C2 is false as stated: a receiver told size = 1 that is
delivered the 2-byte chunk [10, 11] does raise the overflow error and
produces no ack, but only after writing both bytes — the excess
included — to the destination sink. -/
theorem receiver_overflow_writes_excess :
    (Receiver.write (fun l => l)
      { fd := [], remaining := 1, hasher := [], fdClosed := false }
      [10, 11]).2 = Except.error "Receiver overflow" ∧
    (Receiver.write (fun l => l)
      { fd := [], remaining := 1, hasher := [], fdClosed := false }
      [10, 11]).1.fd = [10, 11] := by
  constructor <;> rfl

/-- Claim C2 amended: when a delivered chunk drives `remaining` below
zero while the sink is still open, the receiver raises the Overflow
error and produces no ack, but only after the entire chunk (excess
bytes included) has been written to the destination sink and hashed. -/
theorem receiver_overflow_after_write (H : List Nat → List Nat)
    (r : Receiver) (data : List Nat) (hopen : r.fdClosed = false)
    (_h0 : 0 ≤ r.remaining) (hover : r.remaining < data.length) :
    Receiver.write H r data =
      ({ r with hasher := r.hasher ++ data, fd := r.fd ++ data,
                remaining := r.remaining - data.length },
       Except.error "Receiver overflow") := by
  have h1 : ¬(r.remaining - (data.length : Int) = 0) := by omega
  have h2 : r.remaining - (data.length : Int) < 0 := by omega
  simp [Receiver.write, hopen, h1, h2]

/-- Witness for receiver_overflow_after_write: size 2, one 3-byte
chunk. -/
theorem receiver_overflow_after_write_witness :
    (Receiver.write (fun l => l)
      { fd := [], remaining := 2, hasher := [], fdClosed := false }
      [5, 6, 7]).2 = Except.error "Receiver overflow" := by
  have h := receiver_overflow_after_write (fun l => l)
    { fd := [], remaining := 2, hasher := [], fdClosed := false }
    [5, 6, 7] rfl (by decide) (by decide)
  rw [h]

/-- Claim C3 is false as stated: the header
type = "file", name = "x", size = -1, no compression key, passes
validation (the destination sink is opened and a receiver with
remaining = -1 is returned) although -1 is not a non-negative
integer. -/
theorem incoming_file_accepts_negative_size :
    incoming_file { type := JVal.str "file", name := "x",
                    size := JVal.int (-1), compression := none } =
      Except.ok { fd := [], remaining := -1, hasher := [],
                  fdClosed := false } ∧
    (-1 : Int) < 0 := by
  exact ⟨rfl, by decide⟩

/-- Claim C3 amended: header validation raises (and no receiver is
produced) if and only if the type is not "file", or a compression key
is present, or the size is not an integer; any integer size —
negative ones included — is accepted. -/
theorem incoming_file_ok_iff (h : HeaderMsg) :
    (∃ r, incoming_file h = Except.ok r) ↔
      (h.type = JVal.str "file" ∧ h.compression = none ∧
        ∃ n, h.size = JVal.int n) := by
  rcases h with ⟨t, nm, sz, cp⟩
  simp only [incoming_file]
  split_ifs with h1 h2
  · simp_all
  · cases cp <;> simp_all
  · cases sz <;> simp_all

/-- Claim C4 is false as stated: on the receiving side, a stream that
closes while still awaiting the header (no receiver yet) is silently
ignored — connectionLost performs no action and raises no error. -/
theorem receiveConnectionLost_awaiting_header_silent :
    receiveConnectionLost none = Except.ok () := rfl

/-- Claim C4 amended: a sender-side stream closing before the transfer
is done fires a premature-close failure at the waiter, and a
receiver-side stream closing after the header was parsed with bytes
still outstanding raises an unexpected-close error; but a
receiver-side stream closing before the header has been parsed is
silently ignored. -/
theorem premature_close_surfacing :
    (∀ done : Bool, done = false →
      sendConnectionLost done = some "premature close") ∧
    (∀ r : Receiver, r.remaining ≠ 0 →
      receiveConnectionLost (some r) = Except.error "unexpected close") ∧
    receiveConnectionLost none = Except.ok () := by
  refine ⟨?_, ?_, rfl⟩
  · intro d hd
    simp [sendConnectionLost, hd]
  · intro r hr
    simp [receiveConnectionLost, Receiver.close, hr]

/-- Witness for premature_close_surfacing: a not-done sender stream
and a receiver with one byte outstanding. -/
theorem premature_close_surfacing_witness :
    sendConnectionLost false = some "premature close" ∧
    receiveConnectionLost
      (some { fd := [], remaining := 1, hasher := [], fdClosed := false })
      = Except.error "unexpected close" :=
  ⟨premature_close_surfacing.1 false rfl,
   premature_close_surfacing.2.1
     { fd := [], remaining := 1, hasher := [], fdClosed := false }
     (by decide)⟩

theorem sendHashChunks_flatten (cs : List (List Nat)) :
    ∀ hs, sendHashChunks hs cs = hs ++ cs.flatten := by
  induction cs with
  | nil => intro hs; simp [sendHashChunks]
  | cons c cs ih =>
      intro hs
      rw [sendHashChunks, ih]
      simp [List.append_assoc]

theorem receiver_write_step (H : List Nat → List Nat) (r : Receiver)
    (c : List Nat) (hopen : r.fdClosed = false)
    (hpos : 0 < r.remaining - c.length) :
    Receiver.write H r c =
      ({ r with hasher := r.hasher ++ c, fd := r.fd ++ c,
                remaining := r.remaining - c.length },
       Except.ok none) := by
  have h1 : ¬(r.remaining - (c.length : Int) = 0) := by omega
  have h2 : ¬(r.remaining - (c.length : Int) < 0) := by omega
  simp [Receiver.write, hopen, h1, h2]

theorem receiver_write_finish (H : List Nat → List Nat) (r : Receiver)
    (c : List Nat) (hopen : r.fdClosed = false)
    (hz : r.remaining - c.length = 0) :
    Receiver.write H r c =
      ({ r with hasher := r.hasher ++ c, fd := r.fd ++ c,
                remaining := 0, fdClosed := true },
       Except.ok (some { ack := "ok", sha256 := H (r.hasher ++ c) })) := by
  simp [Receiver.write, Receiver.finish, hopen, hz]

theorem runReceiver_exact (H : List Nat → List Nat) :
    ∀ (cs : List (List Nat)) (r : Receiver), cs ≠ [] →
      r.fdClosed = false →
      r.remaining = (cs.flatten.length : Int) →
      runReceiver H r cs =
        Except.ok ({ fd := r.fd ++ cs.flatten, remaining := 0,
                     hasher := r.hasher ++ cs.flatten, fdClosed := true },
                   some { ack := "ok",
                          sha256 := H (r.hasher ++ cs.flatten) }) := by
  intro cs
  induction cs with
  | nil => intro r h _ _; exact absurd rfl h
  | cons c cs ih =>
      intro r _ hopen hrem
      have hflat : ((c :: cs).flatten : List Nat) = c ++ cs.flatten := rfl
      by_cases htail : cs.flatten.length = 0
      · have hz : r.remaining - (c.length : Int) = 0 := by
          rw [hrem, hflat]
          simp only [List.length_append]
          omega
        have hw := receiver_write_finish H r c hopen hz
        rw [runReceiver, hw]
        have hnil : cs.flatten = [] := List.length_eq_zero.mp htail
        rw [hflat, hnil, List.append_nil]
      · have hpos : 0 < r.remaining - (c.length : Int) := by
          rw [hrem, hflat]
          simp only [List.length_append]
          omega
        have hw := receiver_write_step H r c hopen hpos
        rw [runReceiver, hw]
        have hcs : cs ≠ [] := by
          intro hnil
          rw [hnil] at htail
          exact htail rfl
        have hr2 := ih { r with hasher := r.hasher ++ c, fd := r.fd ++ c,
                                remaining := r.remaining - c.length }
          hcs hopen
          (by
            simp only [hrem, hflat, List.length_append]
            push_cast
            ring)
        dsimp only
        rw [hr2, hflat]
        simp [List.append_assoc]

/-- Claim C5: when the receiver receives exactly the bytes the sender
transmitted (the same byte sequence, possibly chunked differently on
each side), the receiver completes with an ack whose sha256 is the
digest of those bytes, that digest equals the digest the sender
accumulated over its own chunks, and the sender ack verification
succeeds.  `H` is the shared digest function (hashlib.sha256
hexdigest on both sides). -/
theorem digest_correctness (H : List Nat → List Nat)
    (schunks rchunks : List (List Nat))
    (hne : rchunks ≠ [])
    (heq : rchunks.flatten = schunks.flatten) :
    ∃ r a, runReceiver H
        { fd := [], remaining := (schunks.flatten.length : Int),
          hasher := [], fdClosed := false } rchunks =
          Except.ok (r, some a) ∧
      a.sha256 = H rchunks.flatten ∧
      H rchunks.flatten = H (sendHashChunks [] schunks) ∧
      process_ack (some (H (sendHashChunks [] schunks))) a =
        AckOutcome.success := by
  have hr := runReceiver_exact H rchunks
    { fd := [], remaining := (schunks.flatten.length : Int),
      hasher := [], fdClosed := false } hne rfl (by rw [heq])
  simp only [List.nil_append] at hr
  refine ⟨_, _, hr, rfl, ?_, ?_⟩
  · rw [sendHashChunks_flatten, List.nil_append, heq]
  · rw [sendHashChunks_flatten, List.nil_append, ← heq]
    simp [process_ack]

/-- Witness for digest_correctness: 3 bytes sent as [1,2]+[3], received
as [1]+[2,3]. -/
theorem digest_correctness_witness :
    ∃ r a, runReceiver (fun l => l)
        { fd := [],
          remaining := (([[1, 2], [3]] : List (List Nat)).flatten.length : Int),
          hasher := [], fdClosed := false } [[1], [2, 3]] =
          Except.ok (r, some a) ∧
      a.sha256 = (fun l => l) ([[1], [2, 3]] : List (List Nat)).flatten ∧
      (fun l => l) ([[1], [2, 3]] : List (List Nat)).flatten =
        (fun l => l) (sendHashChunks [] [[1, 2], [3]]) ∧
      process_ack (some ((fun l => l) (sendHashChunks [] [[1, 2], [3]])))
        a = AckOutcome.success :=
  digest_correctness (fun l => l) [[1, 2], [3]] [[1], [2, 3]]
    (by decide) (by decide)

/-- Claim C9: a transfer whose header declares size = 0 completes
immediately upon parsing the header frame: from a fresh receive
protocol state, delivering exactly the framed header produces — with
no payload bytes at all — an ack whose sha256 is the digest of the
empty input, and the receiver ends closed with nothing written. -/
theorem zero_size_header_acks (dec : List Nat → HeaderMsg)
    (H : List Nat → List Nat) (hb : List Nat) (nm : String)
    (hdec : dec hb = { type := JVal.str "file", name := nm,
                       size := JVal.int 0, compression := none })
    (hlen : hb.length < 18446744073709551616) :
    recvDataReceived dec H initRecvState (be8encode hb.length ++ hb) =
      Except.ok ({ inHeader := false, headerBuffer := [],
                   receiver := some { fd := [], remaining := 0,
                                      hasher := [], fdClosed := true } },
                 some { ack := "ok", sha256 := H [] }) := by
  have hlendata : (be8encode hb.length ++ hb).length = 8 + hb.length := by
    simp [be8encode_length]
  have htake : (be8encode hb.length ++ hb).take 8 = be8encode hb.length :=
    List.take_left' (be8encode_length _)
  have hdrop8 : (be8encode hb.length ++ hb).drop 8 = hb :=
    List.drop_left' (be8encode_length _)
  have hdropAll : (be8encode hb.length ++ hb).drop (8 + hb.length) = [] := by
    rw [← hlendata]
    exact List.drop_length _
  simp only [recvDataReceived, initRecvState, List.nil_append, if_true]
  rw [if_neg (by rw [hlendata]; omega), htake,
      from_be8core_be8encode hb.length hlen,
      if_neg (by rw [hlendata]; omega), hdrop8, List.take_length, hdec]
  simp [incoming_file, Receiver.write, Receiver.finish, hdropAll]

/-- Witness for zero_size_header_acks: the 2-byte header serialization
[123, 125] under a constant decoder. -/
theorem zero_size_header_acks_witness :
    recvDataReceived
      (fun _ => { type := JVal.str "file", name := "a",
                  size := JVal.int 0, compression := none })
      (fun l => l) initRecvState
      (be8encode ([123, 125] : List Nat).length ++ [123, 125]) =
      Except.ok ({ inHeader := false, headerBuffer := [],
                   receiver := some { fd := [], remaining := 0,
                                      hasher := [], fdClosed := true } },
                 some { ack := "ok", sha256 := (fun l => l) [] }) :=
  zero_size_header_acks
    (fun _ => { type := JVal.str "file", name := "a",
                size := JVal.int 0, compression := none })
    (fun l => l) [123, 125] "a" rfl (by decide)

/-- Claim C7: processing a complete ack frame has exactly one of four
outcomes, characterized by: premature ack iff the expected hash is not
yet set; a not-ok error (reporting the received value) iff the hash is
set and the ack value is not "ok"; a hash mismatch iff the ack is "ok"
but its sha256 differs from the expected hash; success — which fires
"ok" at the waiter, completing the transfer — iff the ack is "ok" and
the sha256 matches. -/
theorem process_ack_outcomes (e : Option (List Nat)) (a : AckMsg) :
    (process_ack e a = AckOutcome.prematureAck ↔ e = none) ∧
    (∀ v, process_ack e a = AckOutcome.notOk v ↔
      (e ≠ none ∧ a.ack ≠ "ok" ∧ v = a.ack)) ∧
    (process_ack e a = AckOutcome.hashMismatch ↔
      ∃ h, e = some h ∧ a.ack = "ok" ∧ a.sha256 ≠ h) ∧
    (process_ack e a = AckOutcome.success ↔
      ∃ h, e = some h ∧ a.ack = "ok" ∧ a.sha256 = h) := by
  cases e with
  | none => simp [process_ack]
  | some h =>
      by_cases hak : a.ack = "ok"
      · by_cases hsh : a.sha256 = h <;> simp [process_ack, hak, hsh]
      · simp only [process_ack, hak]
        refine ⟨by simp [hak], fun v => ?_, by simp [hak], by simp [hak]⟩
        simp [hak, eq_comm]

/-- Witness for process_ack_outcomes: a matching ok ack succeeds. -/
theorem process_ack_outcomes_witness :
    process_ack (some [1, 2]) { ack := "ok", sha256 := [1, 2] } =
      AckOutcome.success :=
  (process_ack_outcomes (some [1, 2])
    { ack := "ok", sha256 := [1, 2] }).2.2.2.mpr ⟨[1, 2], rfl, rfl, rfl⟩

theorem sendLoop_open_after_complete :
    ∀ (rs : List Bool) (i j : Nat) (p t : List SessionEvent),
      sendLoop i rs = p ++ SessionEvent.openStream j :: t →
      i ≤ j ∧ ∀ k, i ≤ k → k < j → SessionEvent.completed k ∈ p := by
  intro rs
  induction rs with
  | nil =>
      intro i j p t h
      exfalso
      have hmem : SessionEvent.openStream j ∈ sendLoop i [] := by
        rw [h]
        simp
      simp [sendLoop] at hmem
  | cons ok rest ih =>
      intro i j p t h
      cases ok with
      | true =>
          rw [sendLoop] at h
          cases p with
          | nil =>
              simp only [List.nil_append, List.cons.injEq,
                         SessionEvent.openStream.injEq] at h
              obtain ⟨hij, -⟩ := h
              refine ⟨le_of_eq hij, ?_⟩
              intro k hk1 hk2
              omega
          | cons e p2 =>
              simp only [List.cons_append, List.cons.injEq] at h
              obtain ⟨he, hbody⟩ := h
              cases p2 with
              | nil => simp at hbody
              | cons e2 p3 =>
                  simp only [List.nil_append, List.cons_append,
                             List.cons.injEq] at hbody
                  obtain ⟨he2, hrest⟩ := hbody
                  obtain ⟨hij, hall⟩ := ih (i + 1) j p3 t hrest
                  refine ⟨by omega, ?_⟩
                  intro k hk1 hk2
                  by_cases hk : k = i
                  · subst hk
                    rw [← he2]
                    simp
                  · have : SessionEvent.completed k ∈ p3 :=
                      hall k (by omega) hk2
                    simp [this]
      | false =>
          rw [sendLoop] at h
          cases p with
          | nil =>
              simp only [List.nil_append, List.cons.injEq,
                         SessionEvent.openStream.injEq] at h
              obtain ⟨hij, -⟩ := h
              refine ⟨le_of_eq hij, ?_⟩
              intro k hk1 hk2
              omega
          | cons e p2 =>
              simp only [List.cons_append, List.cons.injEq] at h
              obtain ⟨he, hbody⟩ := h
              cases p2 with
              | nil => simp at hbody
              | cons e2 p3 =>
                  simp only [List.cons_append, List.cons.injEq] at hbody
                  have := hbody.2
                  simp at this

theorem sendLoop_done_after_all :
    ∀ (rs : List Bool) (i : Nat) (p t : List SessionEvent),
      sendLoop i rs = p ++ SessionEvent.controlDone :: t →
      ∀ k, i ≤ k → k < i + rs.length → SessionEvent.completed k ∈ p := by
  intro rs
  induction rs with
  | nil =>
      intro i p t _ k hk1 hk2
      simp at hk2
      omega
  | cons ok rest ih =>
      intro i p t h
      cases ok with
      | true =>
          rw [sendLoop] at h
          cases p with
          | nil => simp at h
          | cons e p2 =>
              simp only [List.cons_append, List.cons.injEq] at h
              obtain ⟨he, hbody⟩ := h
              cases p2 with
              | nil => simp at hbody
              | cons e2 p3 =>
                  simp only [List.cons_append, List.cons.injEq] at hbody
                  obtain ⟨he2, hrest⟩ := hbody
                  intro k hk1 hk2
                  by_cases hk : k = i
                  · subst hk
                    rw [← he2]
                    simp
                  · have : SessionEvent.completed k ∈ p3 := by
                      apply ih (i + 1) p3 t hrest k (by omega)
                      simp only [List.length_cons] at hk2
                      omega
                    simp [this]
      | false =>
          rw [sendLoop] at h
          cases p with
          | nil => simp at h
          | cons e p2 =>
              simp only [List.cons_append, List.cons.injEq] at h
              obtain ⟨he, hbody⟩ := h
              cases p2 with
              | nil => simp at hbody
              | cons e2 p3 =>
                  simp only [List.cons_append, List.cons.injEq] at hbody
                  have := hbody.2
                  simp at this

/-- Claim C8: in the trace of the sending orchestrator over any list
of per-file outcomes, the outbound stream for file j+1 is opened only
after file j has completed, and the control done message is emitted
only after every one of the N files has completed (in particular it is
not emitted at all when a transfer fails). -/
theorem sequential_sending (rs : List Bool) :
    (∀ j p t,
      sendLoop 0 rs = p ++ SessionEvent.openStream (j + 1) :: t →
      SessionEvent.completed j ∈ p) ∧
    (∀ p t,
      sendLoop 0 rs = p ++ SessionEvent.controlDone :: t →
      ∀ j, j < rs.length → SessionEvent.completed j ∈ p) := by
  constructor
  · intro j p t h
    have hres := sendLoop_open_after_complete rs 0 (j + 1) p t h
    exact hres.2 j (Nat.zero_le j) (by omega)
  · intro p t h j hj
    exact sendLoop_done_after_all rs 0 p t h j (Nat.zero_le j) (by omega)

/-- Witness for sequential_sending: with two successful files, the
stream for file 1 opens only after file 0 completed. -/
theorem sequential_sending_witness :
    SessionEvent.completed 0 ∈
      [SessionEvent.openStream 0, SessionEvent.completed 0] :=
  (sequential_sending [true, true]).1 0
    [SessionEvent.openStream 0, SessionEvent.completed 0]
    [SessionEvent.completed 1, SessionEvent.controlDone] (by decide)
